import Mathlib

/-!
Verification of the APRS emergency detector core
(`aed.py`, `aed_definitions.py`, `utils.py`, `geo_conversion_modules.py`).

Python strings are embedded either as Lean `String` (classifier section,
where only whole-string comparison and marker matching occur) or as
`List Char` (message formatter, where character-level reasoning is
required).  Python `float` arithmetic is embedded as exact rational
(`ℚ`) respectively real (`ℝ`) arithmetic.
-/

namespace Aed

/-! ### Constant tables, from `aed_definitions.py`.
Python `dict`s iterate in insertion order, so each mapping is embedded
as an association list in the source's insertion order. -/

/-- Table `AED_APRS_MAPPING` from `aed_definitions.py`: command-line
category name vs. Mic-E message type. -/
def AED_APRS_MAPPING : List (String × String) :=
  [("OFF_DUTY", "M0: Off Duty"),
   ("EN_ROUTE", "M1: En Route"),
   ("IN_SERVICE", "M2: In Service"),
   ("RETURNING", "M3: Returning"),
   ("COMMITTED", "M4: Committed"),
   ("SPECIAL", "M5: Special"),
   ("PRIORITY", "M6: Priority"),
   ("EMERGENCY", "Emergency")]

/-- Table `AED_APRS_EXTENDED_MAPPING` from `aed_definitions.py`:
category name vs. APRS 1.2 extension marker for the message body. -/
def AED_APRS_EXTENDED_MAPPING : List (String × String) :=
  [("OFF_DUTY", "!OFF-DUTY!"),
   ("EN_ROUTE", "!ENROUTE!"),
   ("IN_SERVICE", "!INSERVICE!"),
   ("RETURNING", "!RETURNING!"),
   ("COMMITTED", "!COMMITTED!"),
   ("SPECIAL", "!SPECIAL!"),
   ("PRIORITY", "!PRIORITY!"),
   ("EMERGENCY", "!EMERGENCY!"),
   ("TESTALARM", "!TESTALARM!")]

/-- List `APRS_EXTENDED_TOCALL_LIST` from `aed_definitions.py`. -/
def APRS_EXTENDED_TOCALL_LIST : List String :=
  ["ALARM", "ALERT", "WARNING", "WXALARM", "EM"]

/-! ### Classifier, from `mycallback` in `aed.py`.

The raw APRS packet is a Python `dict`; only the fields consulted by the
classification part of `mycallback` are embedded (`format`, `comment`,
`to`, `mtype`).  An absent dictionary key is `none`.  The position /
speed / course / callsign fields feed the deduplication cache and the
notifier and are modelled separately in the cache section. -/

structure AprsPacket where
  format : Option String
  comment : Option String
  /-- the `"to"` key of the raw packet (`to` is a Lean keyword) -/
  tocall : Option String
  mtype : Option String

/-- Python truthiness of the `aed_mice_category` variable in
`mycallback`: `None` and the empty string are falsy. -/
def pyTruthy : Option String → Bool
  | none => false
  | some s => !(s == "")

/-- Python `str.startswith`, embedded over the character lists of the
two strings. -/
def pyStartsWith (s pre : String) : Bool := pre.data.isPrefixOf s.data

/-- The APRS 1.2 extended-comment scan in `mycallback` (the
`for key, value in AED_APRS_EXTENDED_MAPPING.items()` loop with `break`
on the first hit): the first table entry whose marker is enabled and is
a leading substring of the comment yields its category key. -/
def extendedCommentScan (comment : String) (aed_extended_categories : List String) :
    Option String :=
  (AED_APRS_EXTENDED_MAPPING.find? fun kv =>
      aed_extended_categories.contains kv.2 && pyStartsWith comment kv.2).map
    (fun kv => kv.1)

/-- The basic Mic-E scan in `mycallback` (the
`for key, value in AED_APRS_MAPPING.items()` loop with `break`): the
first table entry whose Mic-E message type equals `mtype` yields its
category key. -/
def basicMiceScan (mtype : String) : Option String :=
  (AED_APRS_MAPPING.find? fun kv => kv.2 == mtype).map (fun kv => kv.1)

/-- The classification part of `mycallback` in `aed.py` (lines 48-95):
the value of `aed_mice_category` at the notification check.  A packet
without a `format` key is never classified (the whole body is guarded
by `if "format" in raw_aprs_packet`). -/
def mycallback_category (packet : AprsPacket) (aed_aprs_extension : Bool)
    (aed_extended_categories aed_tocall_categories aed_categories : List String) :
    Option String :=
  match packet.format with
  | none => none
  | some fmt =>
    -- APRS 1.2 extension branch: emergency code via comment field
    let cat1 : Option String :=
      if aed_aprs_extension &&
          (fmt == "compressed" || fmt == "uncompressed" || fmt == "object" ||
            fmt == "mic-e") then
        match packet.comment with
        | some comment => extendedCommentScan comment aed_extended_categories
        | none => none
      else none
    -- APRS 1.2 extension, emergency code via TOCALL
    let cat2 : Option String :=
      if aed_aprs_extension && !pyTruthy cat1 then
        match packet.tocall with
        | some tocall =>
            if aed_tocall_categories.contains tocall then some tocall else cat1
        | none => cat1
      else cat1
    -- regular branch for position reports only
    let cat3 : Option String :=
      if fmt == "mic-e" && !pyTruthy cat2 then
        match packet.mtype with
        | some mtype =>
            if aed_categories.contains mtype then basicMiceScan mtype else cat2
        | none => cat2
      else cat2
    cat3

/-! ### Deduplication cache.

`aed.py` imports `set_message_cache_entry` from `utils`, but the
provided `utils.py` does not contain this function; only its caller
(`mycallback`, lines 112-120) and the creation of the backing
`ExpiringDict` (line 250-252) are in the sources.  The cache operation
is therefore modelled from the spec (sections 3, 4.2): a per-callsign
store of the last-seen state together with its write timestamp, with
lazy TTL eviction measured from the last write. -/

/-- The state captured from a classified packet and handed to
`set_message_cache_entry` by `mycallback`: rounded latitude, longitude,
speed, course (any of which may be absent from the packet) and the
detected category.  The rounded Python floats are modelled as scaled
integers; only decidable field equality matters to the cache. -/
structure MiceState where
  latitude : Option Int
  longitude : Option Int
  speed : Option Int
  course : Option Int
  category : String
deriving DecidableEq

/-- A cache entry: the stored state plus the timestamp of the write that
created it. -/
structure CacheEntry where
  state : MiceState
  writeTime : Nat
deriving DecidableEq

/-- The message cache, keyed by callsign.  Modelled from the spec: at
most one entry per identity, so an association list. -/
abbrev MessageCache := List (String × CacheEntry)

/-- Modelled from the spec: the lazy TTL lookup of the `ExpiringDict`
holding the message cache (`aed.py` line 250: `max_age_seconds =
aed_time_to_live * 60`).  An entry whose age exceeds the TTL is treated
as absent. -/
def get_live_entry (cache : MessageCache) (ttl now : Nat) (callsign : String) :
    Option CacheEntry :=
  match cache.find? (fun p => p.1 == callsign) with
  | some p => if now - p.2.writeTime > ttl then none else some p.2
  | none => none

/-- Modelled from the spec: `set_message_cache_entry` (the spec's
`evaluate(identity, new_state)`), which is imported by `aed.py` but
missing from the provided `utils.py`.  Identity absent (or expired) ⇒
insert with the current timestamp and return `true`; present with
field-equal state ⇒ return `false`, cache untouched; present with any
field different ⇒ overwrite (resetting the TTL clock) and return
`true`. -/
def set_message_cache_entry (cache : MessageCache) (ttl now : Nat)
    (callsign : String) (newState : MiceState) : Bool × MessageCache :=
  match get_live_entry cache ttl now callsign with
  | none =>
      (true, (callsign, ⟨newState, now⟩) :: cache.filter (fun p => !(p.1 == callsign)))
  | some e =>
      if e.state = newState then (false, cache)
      else
        (true, (callsign, ⟨newState, now⟩) :: cache.filter (fun p => !(p.1 == callsign)))

/-! ### Message formatter, from `utils.py`.

Python strings are embedded as `List Char` here, since the claims are
about character-level preservation and lengths. -/

/-- Characters kept by `re.sub("[{}|~]+", "", message_to_add)` in
`make_pretty_sms_messages` (line 202): everything except the four
APRS-forbidden characters. -/
def allowedAprsChar (c : Char) : Bool :=
  !(c == '\x7b' || c == '\x7d' || c == '|' || c == '~')

/-- Helper: character-wise flat map over a string. -/
def charFlatMap (f : Char → List Char) : List Char → List Char
  | [] => []
  | c :: rest => f c ++ charFlatMap f rest

/-- The seven sequential German `str.replace` calls of
`convert_text_to_plain_ascii` (`utils.py` lines 297-305).  Each one
replaces a single distinct character by an ASCII string containing none
of the other replaced characters, so the sequence equals one
simultaneous character-wise substitution. -/
def germanChar (c : Char) : List Char :=
  if c = 'Ä' then ['A', 'e']
  else if c = 'Ö' then ['O', 'e']
  else if c = 'Ü' then ['U', 'e']
  else if c = 'ä' then ['a', 'e']
  else if c = 'ö' then ['o', 'e']
  else if c = 'ü' then ['u', 'e']
  else if c = 'ß' then ['s', 's']
  else [c]

/-- Modelled from the spec: the external `unidecode` library called by
`convert_text_to_plain_ascii` (`utils.py` line 306), which is not part
of the repository.  Per the spec ("generic transliteration fallback"),
ASCII characters pass through unchanged and any other character is
replaced by some ASCII transliteration, modelled as the empty
fallback. -/
def unidecodeChar (c : Char) : List Char :=
  if c.toNat ≤ 127 then [c] else []

/-- Function `convert_text_to_plain_ascii` from `utils.py`: German
special characters first, then `unidecode`. -/
def convert_text_to_plain_ascii (message_string : List Char) : List Char :=
  charFlatMap unidecodeChar (charFlatMap germanChar message_string)

/-- The two preprocessing steps at the head of
`make_pretty_sms_messages` (`utils.py` lines 199-209): strip the
APRS-forbidden characters, then down-convert to ASCII unless unicode
output was requested. -/
def sanitizeMessage (force_outgoing_unicode_messages : Bool) (s : List Char) :
    List Char :=
  if force_outgoing_unicode_messages then s.filter allowedAprsChar
  else convert_text_to_plain_ascii (s.filter allowedAprsChar)

/-- Whitespace for Python `str.split()` with no argument (the ASCII
whitespace characters; exotic non-ASCII Unicode whitespace is not
modelled). -/
def isPyWs (c : Char) : Bool :=
  c == ' ' || c == '\t' || c == '\n' || c == '\r' || c == '\x0b' || c == '\x0c'

/-- Accumulator-based worker for `pySplit`. -/
def pySplitAux : List Char → List Char → List (List Char)
  | [], acc => if acc.isEmpty then [] else [acc.reverse]
  | c :: rest, acc =>
    if isPyWs c then
      if acc.isEmpty then pySplitAux rest [] else acc.reverse :: pySplitAux rest []
    else pySplitAux rest (c :: acc)

/-- Python `str.split()` with no argument (`utils.py` line 216): split
on runs of whitespace, discarding empty pieces. -/
def pySplit (s : List Char) : List (List Char) := pySplitAux s []

/-- Function `split_string_to_string_list` from `utils.py` (lines
277-281): chunks of `max_len` characters,
`message_string[index : index + max_len]` for
`index in range(0, len(message_string), max_len)`.  For `max_len = 0`
Python's `range` raises `ValueError`; the model returns `[]` there (all
claims assume a positive `max_len`). -/
def split_string_to_string_list (message_string : List Char) (max_len : Nat) :
    List (List Char) :=
  if hml : max_len = 0 then []
  else if hs : message_string.isEmpty then []
  else
    message_string.take max_len ::
      split_string_to_string_list (message_string.drop max_len) max_len
termination_by message_string.length
decreasing_by
  simp only [List.length_drop]
  simp only [List.isEmpty_iff] at hs
  have : 0 < message_string.length := List.length_pos.mpr hs
  omega

/-- The `try to insert` branch of `make_pretty_sms_messages`
(`utils.py` lines 236-251): if the message together with a
one-character separator allowance fits into the last chunk, append it
there (with the separator when the chunk is non-empty and `add_sep` is
set), otherwise open a new chunk.  An empty destination list just
receives the message as its first chunk. -/
def insertShort (destination_list : List (List Char)) (message_to_add : List Char)
    (max_len : Nat) (separator_char : List Char) (add_sep : Bool) :
    List (List Char) :=
  match destination_list.getLast? with
  | none => destination_list ++ [message_to_add]
  | some string_from_list =>
    if string_from_list.length + message_to_add.length + 1 ≤ max_len then
      let delimiter :=
        if 0 < string_from_list.length && add_sep then separator_char else []
      destination_list.dropLast ++ [string_from_list ++ delimiter ++ message_to_add]
    else destination_list ++ [message_to_add]

/-- Characters satisfying this predicate survive `sanitizeMessage`
unchanged: not APRS-forbidden, and ASCII whenever the ASCII
down-conversion is active. -/
def formatterCharOK (u : Bool) (c : Char) : Bool :=
  allowedAprsChar c && (u || c.toNat ≤ 127)

theorem mem_charFlatMap {f : Char → List Char} {c : Char} :
    ∀ {s : List Char}, c ∈ charFlatMap f s ↔ ∃ d ∈ s, c ∈ f d := by
  intro s
  induction s with
  | nil => simp [charFlatMap]
  | cons d rest ih => simp [charFlatMap, ih]

theorem charFlatMap_congr_id {f : Char → List Char} {s : List Char}
    (h : ∀ c ∈ s, f c = [c]) : charFlatMap f s = s := by
  induction s with
  | nil => rfl
  | cons c rest ih =>
    simp only [charFlatMap, h c (by simp)]
    simp only [List.cons_append, List.nil_append, List.cons.injEq, true_and]
    exact ih fun c hc => h c (by simp [hc])

theorem germanChar_allowed {e d : Char} (he : allowedAprsChar e = true)
    (hd : d ∈ germanChar e) : allowedAprsChar d = true := by
  unfold germanChar at hd
  split_ifs at hd <;>
    simp only [List.mem_cons, List.not_mem_nil, or_false] at hd <;>
    first
      | (rcases hd with rfl | rfl <;> decide)
      | (subst hd; exact he)

theorem germanChar_of_ascii {c : Char} (hc : c.toNat ≤ 127) :
    germanChar c = [c] := by
  unfold germanChar
  split_ifs with h1 h2 h3 h4 h5 h6 h7 <;>
    first
      | rfl
      | (exfalso; subst_vars; revert hc; decide)

theorem unidecodeChar_of_ascii {c : Char} (hc : c.toNat ≤ 127) :
    unidecodeChar c = [c] := by
  unfold unidecodeChar
  exact if_pos hc

/-- Every character of a sanitized message is APRS-allowed, and is
ASCII when the ASCII down-conversion was active. -/
theorem sanitizeMessage_charOK {u : Bool} {s : List Char} :
    ∀ c ∈ sanitizeMessage u s, formatterCharOK u c = true := by
  intro c hc
  cases u with
  | true =>
    have hc2 : c ∈ s.filter allowedAprsChar := by
      simpa [sanitizeMessage] using hc
    simp [formatterCharOK, List.of_mem_filter hc2]
  | false =>
    have hc2 : c ∈
        charFlatMap unidecodeChar (charFlatMap germanChar (s.filter allowedAprsChar)) := by
      simpa [sanitizeMessage, convert_text_to_plain_ascii] using hc
    rw [mem_charFlatMap] at hc2
    obtain ⟨d, hd, hcd⟩ := hc2
    rw [mem_charFlatMap] at hd
    obtain ⟨e, he, hde⟩ := hd
    have hce : c = d ∧ d.toNat ≤ 127 := by
      unfold unidecodeChar at hcd
      by_cases hda : d.toNat ≤ 127
      · rw [if_pos hda] at hcd; simp at hcd; exact ⟨hcd, hda⟩
      · rw [if_neg hda] at hcd; cases hcd
    obtain ⟨rfl, hascii⟩ := hce
    have hall : allowedAprsChar c = true :=
      germanChar_allowed (List.of_mem_filter he) hde
    simp [formatterCharOK, hall, hascii]

/-- Sanitizing a string whose characters already satisfy
`formatterCharOK` is the identity. -/
theorem sanitizeMessage_of_charOK {u : Bool} {s : List Char}
    (h : ∀ c ∈ s, formatterCharOK u c = true) : sanitizeMessage u s = s := by
  have hfil : s.filter allowedAprsChar = s := by
    rw [List.filter_eq_self]
    intro c hc
    exact (Bool.and_elim_left (h c hc))
  cases u with
  | true => simp [sanitizeMessage, hfil]
  | false =>
    have hascii : ∀ c ∈ s, c.toNat ≤ 127 := by
      intro c hc
      have h2 := h c hc
      unfold formatterCharOK at h2
      simp only [Bool.false_or, Bool.and_eq_true, decide_eq_true_eq] at h2
      exact h2.2
    have hstep : sanitizeMessage false s =
        charFlatMap unidecodeChar (charFlatMap germanChar s) := by
      simp [sanitizeMessage, convert_text_to_plain_ascii, hfil]
    rw [hstep,
      charFlatMap_congr_id fun c hc => germanChar_of_ascii (hascii c hc)]
    exact charFlatMap_congr_id fun c hc => unidecodeChar_of_ascii (hascii c hc)

/-- Helper: concatenation of a list of chunks. -/
def joinChunks : List (List Char) → List Char
  | [] => []
  | x :: xs => x ++ joinChunks xs

theorem joinChunks_append (a b : List (List Char)) :
    joinChunks (a ++ b) = joinChunks a ++ joinChunks b := by
  induction a with
  | nil => rfl
  | cons x xs ih => simp [joinChunks, ih]

/-- Dropping whitespace from a string. -/
def stripWs (s : List Char) : List Char := s.filter (fun c => !isPyWs c)

/-- Every word produced by the split worker is non-empty, consists of
non-whitespace characters, and inherits any character-level property of
the input. -/
theorem pySplitAux_words {P : Char → Bool} :
    ∀ (s acc : List Char), (∀ c ∈ s, P c = true) →
      (∀ c ∈ acc, P c = true ∧ isPyWs c = false) →
      ∀ w ∈ pySplitAux s acc, w ≠ [] ∧ ∀ c ∈ w, P c = true ∧ isPyWs c = false := by
  intro s
  induction s with
  | nil =>
    intro acc hs hacc w hw
    unfold pySplitAux at hw
    by_cases ha : acc.isEmpty
    · rw [if_pos ha] at hw; cases hw
    · rw [if_neg ha] at hw
      simp only [List.mem_singleton] at hw
      subst hw
      refine ⟨by simpa [List.isEmpty_iff] using ha, ?_⟩
      intro c hc
      exact hacc c (List.mem_reverse.mp hc)
  | cons c rest ih =>
    intro acc hs hacc w hw
    unfold pySplitAux at hw
    by_cases hws : isPyWs c
    · rw [if_pos hws] at hw
      by_cases ha : acc.isEmpty
      · rw [if_pos ha] at hw
        exact ih [] (fun d hd => hs d (by simp [hd])) (by simp) w hw
      · rw [if_neg ha] at hw
        rcases List.mem_cons.mp hw with rfl | hw2
        · refine ⟨by simpa [List.isEmpty_iff] using ha, ?_⟩
          intro d hd
          exact hacc d (List.mem_reverse.mp hd)
        · exact ih [] (fun d hd => hs d (by simp [hd])) (by simp) w hw2
    · rw [if_neg hws] at hw
      refine ih (c :: acc) (fun d hd => hs d (by simp [hd])) ?_ w hw
      intro d hd
      rcases List.mem_cons.mp hd with rfl | hd2
      · exact ⟨hs d (by simp), by simpa using hws⟩
      · exact hacc d hd2

/-- Concatenating the words of the split reproduces exactly the
non-whitespace characters, in order. -/
theorem pySplitAux_join :
    ∀ (s acc : List Char),
      joinChunks (pySplitAux s acc) = acc.reverse ++ stripWs s := by
  intro s
  induction s with
  | nil =>
    intro acc
    unfold pySplitAux
    by_cases ha : acc.isEmpty
    · rw [if_pos ha]
      have : acc = [] := by simpa [List.isEmpty_iff] using ha
      simp [this, joinChunks, stripWs]
    · rw [if_neg ha]
      simp [joinChunks, stripWs]
  | cons c rest ih =>
    intro acc
    unfold pySplitAux
    by_cases hws : isPyWs c
    · rw [if_pos hws]
      by_cases ha : acc.isEmpty
      · rw [if_pos ha]
        have : acc = [] := by simpa [List.isEmpty_iff] using ha
        simp [this, ih, stripWs, hws]
      · rw [if_neg ha]
        simp [joinChunks, ih, stripWs, hws]
    · rw [if_neg hws]
      simp [ih, stripWs, hws]

theorem pySplit_join (s : List Char) : joinChunks (pySplit s) = stripWs s := by
  simpa using pySplitAux_join s []

/-- Words of a sanitized message sanitize to themselves: this is what
makes the per-word recursion of `make_pretty_sms_messages` bottom out
after one step. -/
theorem sanitize_word_id {u : Bool} {s w : List Char}
    (hw : w ∈ pySplit (sanitizeMessage u s)) : sanitizeMessage u w = w := by
  apply sanitizeMessage_of_charOK
  intro c hc
  have h := pySplitAux_words (P := formatterCharOK u) (sanitizeMessage u s) []
    (fun c hc => sanitizeMessage_charOK c hc) (by simp) w hw
  exact (h.2 c hc).1

/-- Function `make_pretty_sms_messages` from `utils.py` (lines
146-253).  After the preprocessing (`sanitizeMessage`): a message
longer than `max_len` is split on whitespace and each word is packed
recursively (words still not shorter than `max_len` are force-split
via `split_string_to_string_list` and appended as-is); otherwise the
message goes through the `try to insert` branch (`insertShort`).  The
`destination_list = None` dummy handler is subsumed by the empty
list. -/
def make_pretty_sms_messages (message_to_add : List Char)
    (destination_list : List (List Char)) (max_len : Nat)
    (separator_char : List Char) (add_sep : Bool)
    (force_outgoing_unicode_messages : Bool) : List (List Char) :=
  if hlong : (sanitizeMessage force_outgoing_unicode_messages message_to_add).length
      > max_len then
    (pySplit (sanitizeMessage force_outgoing_unicode_messages
        message_to_add)).attach.foldl
      (fun dl wm =>
        if hshort : wm.1.length < max_len then
          make_pretty_sms_messages wm.1 dl max_len separator_char add_sep
            force_outgoing_unicode_messages
        else dl ++ split_string_to_string_list wm.1 max_len)
      destination_list
  else
    insertShort destination_list
      (sanitizeMessage force_outgoing_unicode_messages message_to_add)
      max_len separator_char add_sep
termination_by
  (sanitizeMessage force_outgoing_unicode_messages message_to_add).length
decreasing_by
  rw [sanitize_word_id wm.2]
  omega

/-- One iteration of the word loop in the long branch of
`make_pretty_sms_messages` (lines 217-235), with the recursive call on
a short word already unfolded to `insertShort` (legitimate because a
word of a sanitized message sanitizes to itself, `sanitize_word_id`,
and is short enough to take the insert branch). -/
def packWord (max_len : Nat) (separator_char : List Char) (add_sep : Bool)
    (dl : List (List Char)) (w : List Char) : List (List Char) :=
  if w.length < max_len then insertShort dl w max_len separator_char add_sep
  else dl ++ split_string_to_string_list w max_len

theorem foldl_attach_eq {α β : Type} {l : List α} {f : β → {x // x ∈ l} → β}
    {g : β → α → β} (h : ∀ b x (hx : x ∈ l), f b ⟨x, hx⟩ = g b x) (b : β) :
    l.attach.foldl f b = l.foldl g b := by
  have hf : f = fun b p => g b p.1 := by
    funext b p
    cases p with
    | mk x hx => exact h b x hx
  subst hf
  have h2 := List.foldl_map (fun (p : {x // x ∈ l}) => p.val) g l.attach b
  rw [List.attach_map_subtype_val] at h2
  exact h2.symm

/-- Unfolding `make_pretty_sms_messages` in the short case: the
sanitized message fits into `max_len`, so it goes through the insert
branch. -/
theorem make_pretty_short {msg : List Char} {dest : List (List Char)}
    {max_len : Nat} {sep : List Char} {addSep u : Bool}
    (h : (sanitizeMessage u msg).length ≤ max_len) :
    make_pretty_sms_messages msg dest max_len sep addSep u =
      insertShort dest (sanitizeMessage u msg) max_len sep addSep := by
  rw [make_pretty_sms_messages]
  rw [dif_neg (by omega)]

/-- Unfolding `make_pretty_sms_messages` in the long case: the word
loop, with the recursion already resolved to `packWord`. -/
theorem make_pretty_long {msg : List Char} {dest : List (List Char)}
    {max_len : Nat} {sep : List Char} {addSep u : Bool}
    (h : max_len < (sanitizeMessage u msg).length) :
    make_pretty_sms_messages msg dest max_len sep addSep u =
      (pySplit (sanitizeMessage u msg)).foldl (packWord max_len sep addSep) dest := by
  rw [make_pretty_sms_messages]
  rw [dif_pos h]
  apply foldl_attach_eq
  intro dl w hmem
  by_cases hshort : w.length < max_len
  · rw [dif_pos hshort]
    unfold packWord
    rw [if_pos hshort]
    rw [make_pretty_short (by rw [sanitize_word_id hmem]; omega),
      sanitize_word_id hmem]
  · rw [dif_neg hshort]
    unfold packWord
    rw [if_neg hshort]

theorem stripWs_append (a b : List Char) :
    stripWs (a ++ b) = stripWs a ++ stripWs b := by
  simp [stripWs, List.filter_append]

/-- The insert branch never deletes characters: modulo whitespace (the
separator, when whitespace, and possibly whitespace inside the message
are the only characters it adds), it appends exactly the message. -/
theorem insertShort_join {dest : List (List Char)} {m : List Char}
    {max_len : Nat} {sep : List Char} {addSep : Bool}
    (hsep : addSep = false ∨ ∀ c ∈ sep, isPyWs c = true) :
    stripWs (joinChunks (insertShort dest m max_len sep addSep)) =
      stripWs (joinChunks dest) ++ stripWs m := by
  have hdelim : ∀ b : Bool,
      stripWs (if b && addSep then sep else []) = [] := by
    intro b
    by_cases hb : (b && addSep) = true
    · rw [if_pos hb]
      rcases hsep with rfl | hws
      · simp at hb
      · simp only [stripWs, List.filter_eq_nil_iff]
        intro c hc
        simp [hws c hc]
    · rw [if_neg hb]
      rfl
  rcases List.eq_nil_or_concat dest with rfl | ⟨init, last, rfl⟩
  · simp [insertShort, joinChunks, stripWs]
  · unfold insertShort
    simp only [List.concat_eq_append, List.getLast?_concat]
    by_cases hfit : last.length + m.length + 1 ≤ max_len
    · rw [if_pos hfit]
      rw [List.dropLast_concat]
      rw [joinChunks_append, joinChunks_append]
      simp only [joinChunks, List.append_nil]
      rw [stripWs_append, stripWs_append, stripWs_append, stripWs_append,
        hdelim]
      simp
    · rw [if_neg hfit]
      simp [joinChunks_append, joinChunks, stripWs_append]

theorem insertShort_ne_nil {dest : List (List Char)} {m : List Char}
    {max_len : Nat} {sep : List Char} {addSep : Bool} :
    insertShort dest m max_len sep addSep ≠ [] := by
  unfold insertShort
  split
  · simp
  · split
    · simp
    · simp

/-- The insert branch keeps every chunk within `max_len`, provided the
message fits, the separator has at most one character (the fit check
hard-codes a one-character separator allowance) and all previous chunks
were within bounds. -/
theorem insertShort_length {dest : List (List Char)} {m : List Char}
    {max_len : Nat} {sep : List Char} {addSep : Bool}
    (hsep : sep.length ≤ 1) (hm : m.length ≤ max_len)
    (hdest : ∀ s ∈ dest, s.length ≤ max_len) :
    ∀ s ∈ insertShort dest m max_len sep addSep, s.length ≤ max_len := by
  unfold insertShort
  rcases List.eq_nil_or_concat dest with rfl | ⟨init, last, rfl⟩
  · intro s hs
    simp only [List.getLast?_nil, List.nil_append, List.mem_singleton] at hs
    subst hs
    exact hm
  · rw [List.concat_eq_append] at hdest
    simp only [List.concat_eq_append, List.getLast?_concat]
    by_cases hfit : last.length + m.length + 1 ≤ max_len
    · rw [if_pos hfit]
      rw [List.dropLast_concat]
      intro s hs
      rcases List.mem_append.mp hs with hs2 | hs2
      · exact hdest s (List.mem_append.mpr (Or.inl hs2))
      · simp only [List.mem_singleton] at hs2
        subst hs2
        have hd : (if (decide (0 < last.length) && addSep) = true then sep
            else []).length ≤ 1 := by
          by_cases hb : (decide (0 < last.length) && addSep) = true
          · rw [if_pos hb]; exact hsep
          · rw [if_neg hb]; simp
        simp only [List.length_append]
        omega
    · rw [if_neg hfit]
      intro s hs
      rcases List.mem_append.mp hs with hs2 | hs2
      · exact hdest s hs2
      · simp only [List.mem_singleton] at hs2
        subst hs2
        exact hm

/-- Concatenating the force-split chunks gives back the string. -/
theorem split_string_join {n : Nat} (hn : 1 ≤ n) :
    ∀ s : List Char, joinChunks (split_string_to_string_list s n) = s := by
  have H : ∀ (len : Nat) (s : List Char), s.length ≤ len →
      joinChunks (split_string_to_string_list s n) = s := by
    intro len
    induction len with
    | zero =>
      intro s hs
      have hnil : s = [] := List.eq_nil_of_length_eq_zero (by omega)
      subst hnil
      rw [split_string_to_string_list, dif_neg (by omega), dif_pos (by simp)]
      rfl
    | succ k ih =>
      intro s hs
      rw [split_string_to_string_list, dif_neg (by omega)]
      by_cases hemp : s.isEmpty
      · rw [dif_pos hemp]
        rw [List.isEmpty_iff] at hemp
        simp [hemp, joinChunks]
      · rw [dif_neg hemp]
        rw [List.isEmpty_iff] at hemp
        have hpos : 0 < s.length := List.length_pos.mpr hemp
        simp only [joinChunks]
        rw [ih (s.drop n) (by simp only [List.length_drop]; omega)]
        exact List.take_append_drop n s
  intro s
  exact H s.length s le_rfl

theorem split_string_chunk_length {n : Nat} :
    ∀ s : List Char, ∀ t ∈ split_string_to_string_list s n, t.length ≤ n := by
  have H : ∀ (len : Nat) (s : List Char), s.length ≤ len →
      ∀ t ∈ split_string_to_string_list s n, t.length ≤ n := by
    intro len
    induction len with
    | zero =>
      intro s hs
      have hnil : s = [] := List.eq_nil_of_length_eq_zero (by omega)
      subst hnil
      rw [split_string_to_string_list]
      by_cases hn : n = 0
      · rw [dif_pos hn]; simp
      · rw [dif_neg hn, dif_pos (by simp)]; simp
    | succ k ih =>
      intro s hs
      rw [split_string_to_string_list]
      by_cases hn : n = 0
      · rw [dif_pos hn]
        simp
      · rw [dif_neg hn]
        by_cases hemp : s.isEmpty
        · rw [dif_pos hemp]
          simp
        · rw [dif_neg hemp]
          rw [List.isEmpty_iff] at hemp
          have hpos : 0 < s.length := List.length_pos.mpr hemp
          intro t ht
          rcases List.mem_cons.mp ht with rfl | ht2
          · simp [List.length_take]
          · exact ih (s.drop n) (by simp only [List.length_drop]; omega) t ht2
  intro s
  exact H s.length s le_rfl

theorem split_string_ne_nil {n : Nat} {s : List Char} (hn : 1 ≤ n)
    (hs : s ≠ []) : split_string_to_string_list s n ≠ [] := by
  rw [split_string_to_string_list]
  rw [dif_neg (by omega)]
  rw [dif_neg (by simpa [List.isEmpty_iff] using hs)]
  simp

theorem packWord_fold_join {max_len : Nat} {sep : List Char} {addSep : Bool}
    (hml : 1 ≤ max_len)
    (hsep : addSep = false ∨ ∀ c ∈ sep, isPyWs c = true) :
    ∀ (words dl : List (List Char)),
      (∀ w ∈ words, ∀ c ∈ w, isPyWs c = false) →
      stripWs (joinChunks (words.foldl (packWord max_len sep addSep) dl)) =
        stripWs (joinChunks dl) ++ joinChunks words := by
  intro words
  induction words with
  | nil =>
    intro dl hw
    simp [joinChunks]
  | cons w ws ih =>
    intro dl hw
    simp only [List.foldl_cons]
    rw [ih _ (fun v hv => hw v (by simp [hv]))]
    have hwq : stripWs w = w := by
      rw [stripWs, List.filter_eq_self]
      intro c hc
      simp [hw w (by simp) c hc]
    unfold packWord
    by_cases hs : w.length < max_len
    · rw [if_pos hs, insertShort_join hsep, hwq]
      simp [joinChunks, List.append_assoc]
    · rw [if_neg hs]
      rw [joinChunks_append, stripWs_append, split_string_join hml, hwq]
      simp [joinChunks, List.append_assoc]

theorem packWord_fold_ne_nil {max_len : Nat} {sep : List Char} {addSep : Bool}
    (hml : 1 ≤ max_len) :
    ∀ (words dl : List (List Char)),
      (∀ w ∈ words, w ≠ []) → (words ≠ [] ∨ dl ≠ []) →
      words.foldl (packWord max_len sep addSep) dl ≠ [] := by
  intro words
  induction words with
  | nil =>
    intro dl hw h
    simp only [List.foldl_nil]
    rcases h with h | h
    · exact absurd rfl h
    · exact h
  | cons w ws ih =>
    intro dl hw h
    simp only [List.foldl_cons]
    apply ih
    · intro v hv
      exact hw v (by simp [hv])
    · right
      unfold packWord
      by_cases hs : w.length < max_len
      · rw [if_pos hs]
        exact insertShort_ne_nil
      · rw [if_neg hs]
        intro hcontra
        rcases List.append_eq_nil.mp hcontra with ⟨-, h2⟩
        exact split_string_ne_nil hml (hw w (by simp)) h2

theorem packWord_fold_length {max_len : Nat} {sep : List Char} {addSep : Bool}
    (hsep : sep.length ≤ 1) :
    ∀ (words dl : List (List Char)),
      (∀ s ∈ dl, s.length ≤ max_len) →
      ∀ s ∈ words.foldl (packWord max_len sep addSep) dl, s.length ≤ max_len := by
  intro words
  induction words with
  | nil =>
    intro dl hdl
    simpa using hdl
  | cons w ws ih =>
    intro dl hdl
    simp only [List.foldl_cons]
    apply ih
    unfold packWord
    by_cases hs : w.length < max_len
    · rw [if_pos hs]
      exact insertShort_length hsep (by omega) hdl
    · rw [if_neg hs]
      intro s hs2
      rcases List.mem_append.mp hs2 with h2 | h2
      · exact hdl s h2
      · exact split_string_chunk_length w s h2

/-- C5 (as stated, refuted): the chunks do not reproduce the original
input characters — here the single input character, the opening brace,
is deleted by the APRS character filter before packing, and the run
inserts no separator at all. -/
theorem formatter_char_preservation_counterexample :
    make_pretty_sms_messages ['\x7b'] [] 5 [' '] true true = [[]] ∧
    joinChunks [([] : List Char)] ≠ ['\x7b'] := by
  constructor
  · rw [make_pretty_short (by decide)]
    decide
  · decide

/-- C5 (amended): for a positive `max_len` and a whitespace separator
(or separators disabled), concatenating all chunks and ignoring
whitespace reproduces exactly, in order, the non-whitespace characters
of the *sanitized* input (APRS-forbidden characters removed and, when
unicode is off, ASCII-transliterated), prefixed by the content already
in the destination list. -/
theorem formatter_preserves_sanitized_chars
    (msg : List Char) (dest : List (List Char)) (max_len : Nat)
    (sep : List Char) (addSep u : Bool)
    (hml : 1 ≤ max_len)
    (hsep : addSep = false ∨ ∀ c ∈ sep, isPyWs c = true) :
    stripWs (joinChunks (make_pretty_sms_messages msg dest max_len sep addSep u)) =
      stripWs (joinChunks dest) ++ stripWs (sanitizeMessage u msg) := by
  by_cases h : (sanitizeMessage u msg).length ≤ max_len
  · rw [make_pretty_short h]
    exact insertShort_join hsep
  · rw [make_pretty_long (by omega)]
    have hwords : ∀ w ∈ pySplit (sanitizeMessage u msg), ∀ c ∈ w,
        isPyWs c = false := by
      intro w hw c hc
      exact (((pySplitAux_words (P := fun _ => true) (sanitizeMessage u msg) []
        (fun _ _ => rfl) (by simp)) w hw).2 c hc).2
    rw [packWord_fold_join hml hsep _ dest hwords, pySplit_join]

theorem formatter_preserves_sanitized_chars_witness :
    stripWs (joinChunks (make_pretty_sms_messages
        ['H', 'i', ' ', 'a', 'l', 'l'] [] 4 [' '] true true)) =
      stripWs (joinChunks []) ++
        stripWs (sanitizeMessage true ['H', 'i', ' ', 'a', 'l', 'l']) :=
  formatter_preserves_sanitized_chars _ _ _ _ _ _ (by decide) (Or.inr (by decide))

/-- C6 (as stated, refuted): a non-empty input of six blanks with
`max_len = 5` yields the empty chunk list — the over-long message is
whitespace-split into zero words, so nothing is ever appended. -/
theorem formatter_nonempty_counterexample :
    make_pretty_sms_messages [' ', ' ', ' ', ' ', ' ', ' '] [] 5 [' ']
      true true = [] := by
  rw [make_pretty_long (by decide)]
  decide

/-- C6 (amended): for every input and positive `max_len` the formatter
terminates (it is a total function), and it returns a non-empty chunk
list provided the sanitized input either fits into `max_len` or
contains at least one non-whitespace character. -/
theorem formatter_returns_nonempty
    (msg : List Char) (dest : List (List Char)) (max_len : Nat)
    (sep : List Char) (addSep u : Bool)
    (hml : 1 ≤ max_len)
    (hcond : (sanitizeMessage u msg).length ≤ max_len ∨
      ∃ c ∈ sanitizeMessage u msg, isPyWs c = false) :
    make_pretty_sms_messages msg dest max_len sep addSep u ≠ [] := by
  by_cases h : (sanitizeMessage u msg).length ≤ max_len
  · rw [make_pretty_short h]
    exact insertShort_ne_nil
  · rw [make_pretty_long (by omega)]
    apply packWord_fold_ne_nil hml
    · intro w hw
      exact ((pySplitAux_words (P := fun _ => true) (sanitizeMessage u msg) []
        (fun _ _ => rfl) (by simp)) w hw).1
    · left
      rcases hcond with hc | ⟨c, hc, hcw⟩
      · omega
      · intro hnil
        have hj := pySplit_join (sanitizeMessage u msg)
        rw [hnil] at hj
        have hcm : c ∈ stripWs (sanitizeMessage u msg) :=
          List.mem_filter.mpr ⟨hc, by simp [hcw]⟩
        rw [← hj] at hcm
        simp [joinChunks] at hcm

theorem formatter_returns_nonempty_witness :
    make_pretty_sms_messages ['H', 'E', 'L', 'L', 'O'] [] 3 [' '] true true ≠ [] :=
  formatter_returns_nonempty _ _ _ _ _ _ (by decide) (Or.inr (by decide))

/-- C10 (as stated, refuted): with a three-character separator, the fit
check (which hard-codes a one-character separator allowance) lets the
merged chunk overflow `max_len`. -/
theorem formatter_chunk_length_counterexample :
    (['A', 'A', 'A'] : List Char).length ≤ 8 ∧
    make_pretty_sms_messages ['A', 'A', 'A', 'A'] [['A', 'A', 'A']] 8
        [',', ',', ','] true true =
      [['A', 'A', 'A', ',', ',', ',', 'A', 'A', 'A', 'A']] ∧
    8 < (['A', 'A', 'A', ',', ',', ',', 'A', 'A', 'A', 'A'] : List Char).length := by
  refine ⟨by decide, ?_, by decide⟩
  rw [make_pretty_short (by decide)]
  decide

/-- C10 (amended): the chunk-length invariant holds once the separator
has at most one character, matching the one-character allowance of the
fit check. -/
theorem formatter_chunk_length_invariant
    (msg : List Char) (dest : List (List Char)) (max_len : Nat)
    (sep : List Char) (addSep u : Bool)
    (hml : 1 ≤ max_len) (hsep : sep.length ≤ 1)
    (hdest : ∀ s ∈ dest, s.length ≤ max_len) :
    ∀ s ∈ make_pretty_sms_messages msg dest max_len sep addSep u,
      s.length ≤ max_len := by
  by_cases h : (sanitizeMessage u msg).length ≤ max_len
  · rw [make_pretty_short h]
    exact insertShort_length hsep h hdest
  · rw [make_pretty_long (by omega)]
    exact packWord_fold_length hsep _ dest hdest

theorem formatter_chunk_length_invariant_witness :
    ['A', 'B'] ∈ make_pretty_sms_messages ['A', 'B'] [['C']] 3 [' '] true true ∧
    (['A', 'B'] : List Char).length ≤ 3 :=
  ⟨by rw [make_pretty_short (by decide)]; decide,
   formatter_chunk_length_invariant ['A', 'B'] [['C']] 3 [' '] true true
     (by decide) (by decide) (by decide) ['A', 'B']
     (by rw [make_pretty_short (by decide)]; decide)⟩

/-! ### Cache claim theorems (C1, C2). -/

theorem get_live_entry_after_write (rest : MessageCache) (ttl now : Nat)
    (cs : String) (st : MiceState) :
    get_live_entry ((cs, ⟨st, now⟩) :: rest) ttl now cs = some ⟨st, now⟩ := by
  unfold get_live_entry
  simp [List.find?]

theorem set_entry_eq_of_none {cache : MessageCache} {ttl now : Nat}
    {cs : String} {st : MiceState}
    (h : get_live_entry cache ttl now cs = none) :
    set_message_cache_entry cache ttl now cs st =
      (true, (cs, ⟨st, now⟩) :: cache.filter (fun p => !(p.1 == cs))) := by
  unfold set_message_cache_entry
  rw [h]

theorem set_entry_eq_of_some_eq {cache : MessageCache} {ttl now : Nat}
    {cs : String} {st : MiceState} {e : CacheEntry}
    (h : get_live_entry cache ttl now cs = some e) (hst : e.state = st) :
    set_message_cache_entry cache ttl now cs st = (false, cache) := by
  unfold set_message_cache_entry
  rw [h]
  show (if e.state = st then _ else _) = _
  rw [if_pos hst]

theorem set_entry_eq_of_some_ne {cache : MessageCache} {ttl now : Nat}
    {cs : String} {st : MiceState} {e : CacheEntry}
    (h : get_live_entry cache ttl now cs = some e) (hst : e.state ≠ st) :
    set_message_cache_entry cache ttl now cs st =
      (true, (cs, ⟨st, now⟩) :: cache.filter (fun p => !(p.1 == cs))) := by
  unfold set_message_cache_entry
  rw [h]
  show (if e.state = st then _ else _) = _
  rw [if_neg hst]

theorem get_live_entry_expired {cache : MessageCache} {ttl now : Nat}
    {cs : String} {p : String × CacheEntry}
    (hp : cache.find? (fun q => q.1 == cs) = some p)
    (hexp : ttl < now - p.2.writeTime) :
    get_live_entry cache ttl now cs = none := by
  unfold get_live_entry
  rw [hp]
  show (if now - p.2.writeTime > ttl then _ else _) = _
  rw [if_pos hexp]

/-- C1: the spec's `evaluate`: a fresh (or expired) identity is
inserted and reported notifiable; a live identity with field-equal
state is reported as duplicate with the cache left untouched; a live
identity with any differing field is overwritten (timestamped `now`)
and reported notifiable. -/
theorem cache_evaluate_cases (cache : MessageCache) (ttl now : Nat)
    (cs : String) (st : MiceState) :
    (get_live_entry cache ttl now cs = none →
      (set_message_cache_entry cache ttl now cs st).1 = true ∧
      get_live_entry (set_message_cache_entry cache ttl now cs st).2 ttl now cs =
        some ⟨st, now⟩) ∧
    (∀ e, get_live_entry cache ttl now cs = some e → e.state = st →
      set_message_cache_entry cache ttl now cs st = (false, cache)) ∧
    (∀ e, get_live_entry cache ttl now cs = some e → e.state ≠ st →
      (set_message_cache_entry cache ttl now cs st).1 = true ∧
      get_live_entry (set_message_cache_entry cache ttl now cs st).2 ttl now cs =
        some ⟨st, now⟩) := by
  refine ⟨?_, ?_, ?_⟩
  · intro h
    rw [set_entry_eq_of_none h]
    exact ⟨rfl, get_live_entry_after_write _ _ _ _ _⟩
  · intro e he hst
    exact set_entry_eq_of_some_eq he hst
  · intro e he hst
    rw [set_entry_eq_of_some_ne he hst]
    exact ⟨rfl, get_live_entry_after_write _ _ _ _ _⟩

theorem cache_evaluate_cases_witness :
    (set_message_cache_entry [] 10 0 "DF1JSL-1"
        ⟨some 51, some 9, none, none, "EMERGENCY"⟩).1 = true ∧
    get_live_entry (set_message_cache_entry [] 10 0 "DF1JSL-1"
        ⟨some 51, some 9, none, none, "EMERGENCY"⟩).2 10 0 "DF1JSL-1" =
      some ⟨⟨some 51, some 9, none, none, "EMERGENCY"⟩, 0⟩ :=
  (cache_evaluate_cases [] 10 0 "DF1JSL-1"
    ⟨some 51, some 9, none, none, "EMERGENCY"⟩).1 (by decide)

/-- C2: a call that writes (returns `true`) stamps the entry with the
current time, i.e. resets its TTL clock; a duplicate read (returns
`false`) leaves the cache — and hence every write timestamp — exactly
as it was; and an identity whose stored entry is older than the TTL is
treated as brand-new, so even a field-equal state is reported
notifiable again. -/
theorem cache_ttl_behavior (cache : MessageCache) (ttl now : Nat)
    (cs : String) (st : MiceState) :
    ((set_message_cache_entry cache ttl now cs st).1 = true →
      ((set_message_cache_entry cache ttl now cs st).2.find?
        (fun p => p.1 == cs)).map (fun p => p.2.writeTime) = some now) ∧
    ((set_message_cache_entry cache ttl now cs st).1 = false →
      (set_message_cache_entry cache ttl now cs st).2 = cache) ∧
    (∀ p, cache.find? (fun q => q.1 == cs) = some p →
      ttl < now - p.2.writeTime →
      (set_message_cache_entry cache ttl now cs st).1 = true) := by
  refine ⟨?_, ?_, ?_⟩
  · intro h
    cases hl : get_live_entry cache ttl now cs with
    | none =>
      rw [set_entry_eq_of_none hl]
      simp [List.find?]
    | some e =>
      by_cases hst : e.state = st
      · rw [set_entry_eq_of_some_eq hl hst] at h
        simp at h
      · rw [set_entry_eq_of_some_ne hl hst]
        simp [List.find?]
  · intro h
    cases hl : get_live_entry cache ttl now cs with
    | none =>
      rw [set_entry_eq_of_none hl] at h
      simp at h
    | some e =>
      by_cases hst : e.state = st
      · rw [set_entry_eq_of_some_eq hl hst]
      · rw [set_entry_eq_of_some_ne hl hst] at h
        simp at h
  · intro p hp hexp
    rw [set_entry_eq_of_none (get_live_entry_expired hp hexp)]

theorem cache_ttl_behavior_witness :
    ((set_message_cache_entry
        [("DF1JSL-1", ⟨⟨some 51, some 9, none, none, "EMERGENCY"⟩, 0⟩)]
        10 11 "DF1JSL-1" ⟨some 51, some 9, none, none, "EMERGENCY"⟩).1 = true) :=
  (cache_ttl_behavior
      [("DF1JSL-1", ⟨⟨some 51, some 9, none, none, "EMERGENCY"⟩, 0⟩)]
      10 11 "DF1JSL-1" ⟨some 51, some 9, none, none, "EMERGENCY"⟩).2.2
    ⟨"DF1JSL-1", ⟨⟨some 51, some 9, none, none, "EMERGENCY"⟩, 0⟩⟩
    (by decide) (by decide)

/-! ### Classifier claim theorems (C3, C4). -/

theorem extendedCommentScan_key_nonempty {c : String} {extCats : List String}
    {k : String} (hk : extendedCommentScan c extCats = some k) :
    (k == "") = false := by
  unfold extendedCommentScan at hk
  rcases Option.map_eq_some'.mp hk with ⟨kv, hfind, hkv⟩
  have hmem : kv ∈ AED_APRS_EXTENDED_MAPPING := List.mem_of_find?_eq_some hfind
  subst hkv
  fin_cases hmem <;> decide

/-- C3: under extended mode, a record that matches both the
extended-comment strategy and the TOCALL strategy is classified by the
comment strategy: the TOCALL table hit never changes the result. -/
theorem classifier_comment_strategy_precedence
    (p : AprsPacket) (extCats tocallCats cats : List String)
    (fmt c t k : String)
    (hfmt : p.format = some fmt)
    (h4 : fmt = "compressed" ∨ fmt = "uncompressed" ∨ fmt = "object" ∨
      fmt = "mic-e")
    (hc : p.comment = some c)
    (hk : extendedCommentScan c extCats = some k)
    (ht : p.tocall = some t)
    (htc : tocallCats.contains t = true) :
    mycallback_category p true extCats tocallCats cats = some k := by
  have hne := extendedCommentScan_key_nonempty hk
  rcases h4 with rfl | rfl | rfl | rfl <;>
    simp [mycallback_category, hfmt, hc, hk, ht, pyTruthy, hne]

theorem classifier_comment_strategy_precedence_witness :
    mycallback_category
      ⟨some "mic-e", some "!EMERGENCY! need help", some "ALARM",
        some "M3: Returning"⟩
      true ["!EMERGENCY!"] ["ALARM"] ["M3: Returning"] = some "EMERGENCY" :=
  classifier_comment_strategy_precedence _ _ _ _ "mic-e"
    "!EMERGENCY! need help" "ALARM" "EMERGENCY" rfl (Or.inr (Or.inr (Or.inr rfl)))
    rfl (by decide) rfl (by decide)

/-- C4: with extended mode disabled, a record whose packet format is
not the Mic-E compressed-position encoding is never classified: no
category is produced and no notification path is taken. -/
theorem classifier_none_without_extension
    (p : AprsPacket) (extCats tocallCats cats : List String)
    (hfmt : p.format ≠ some "mic-e") :
    mycallback_category p false extCats tocallCats cats = none := by
  unfold mycallback_category
  cases hf : p.format with
  | none => rfl
  | some fmt =>
    have hne : (fmt == "mic-e") = false := by
      rw [beq_eq_false_iff_ne]
      intro hcontra
      exact hfmt (hf ▸ hcontra ▸ rfl)
    simp [hne, pyTruthy]

theorem classifier_none_without_extension_witness :
    mycallback_category
      ⟨some "uncompressed", some "!EMERGENCY! need help", some "ALARM",
        some "M3: Returning"⟩
      false ["!EMERGENCY!"] ["ALARM"] ["M3: Returning"] = none :=
  classifier_none_without_extension _ _ _ _ (by decide)

/-! ### Geo conversions, from `geo_conversion_modules.py`.

Python `float` arithmetic is embedded as exact rational arithmetic for
the DMS and grid-square conversions, and as real arithmetic for the
trigonometric `haversine`. -/

/-- Python `int()` truncation toward zero, on rationals. -/
def pyInt (q : ℚ) : ℤ := if 0 ≤ q then ⌊q⌋ else ⌈q⌉

/-- Python `divmod(a, b)` for a positive divisor: floor quotient and
remainder. -/
def pyDivmod (a b : ℚ) : ℚ × ℚ :=
  ((⌊a / b⌋ : ℤ), a - b * (⌊a / b⌋ : ℤ))

/-- Round to the nearest integer, ties to the even integer (Python 3
`round`); ties are resolved on the exact rational value. -/
def roundHalfEvenQ (q : ℚ) : ℤ :=
  if q - ⌊q⌋ < 1 / 2 then ⌊q⌋
  else if 1 / 2 < q - ⌊q⌋ then ⌊q⌋ + 1
  else if ⌊q⌋ % 2 = 0 then ⌊q⌋ else ⌊q⌋ + 1

/-- Python `round(x, n)` for a digit count `n`. -/
def pyRound (q : ℚ) (n : Nat) : ℚ :=
  (roundHalfEvenQ (q * 10 ^ n) : ℚ) / (10 ^ n : ℚ)

/-- Python `str.upper()`, embedded character-wise. -/
def pyUpper (s : String) : String := ⟨s.data.map Char.toUpper⟩

/-- Python `str.lower()`, embedded character-wise. -/
def pyLower (s : String) : String := ⟨s.data.map Char.toLower⟩

/-- Function `convert_latlon_to_dms` from `geo_conversion_modules.py`
(lines 214-282).  Result tuple: latitude degrees, minutes, rounded
seconds and hemisphere letter, then the same four for the longitude.
`int()` is applied to non-negative quantities, so it is the floor. -/
def convert_latlon_to_dms (latitude longitude : ℚ)
    (output_precision : Nat := 4) :
    ℤ × ℤ × ℚ × String × ℤ × ℤ × ℚ × String :=
  let is_positive_lat := 0 ≤ latitude
  let is_positive_lon := 0 ≤ longitude
  let lat := |latitude|
  let lon := |longitude|
  let pl := pyDivmod (lat * 3600) 60
  let pl2 := pyDivmod pl.1 60
  let pn := pyDivmod (lon * 3600) 60
  let pn2 := pyDivmod pn.1 60
  let latitude_deg : ℚ := if is_positive_lat then pl2.1 else -pl2.1
  let longitude_deg : ℚ := if is_positive_lon then pn2.1 else -pn2.1
  let latitude_heading : String := if latitude_deg < 0 then "S" else "N"
  let longitude_heading : String := if longitude_deg < 0 then "W" else "E"
  (pyInt |latitude_deg|, pyInt pl2.2, pyRound pl.2 output_precision,
    latitude_heading,
    pyInt |longitude_deg|, pyInt pn2.2, pyRound pn.2 output_precision,
    longitude_heading)

/-- Function `convert_dms_to_latlon` from `geo_conversion_modules.py`
(lines 285-340).  The source `assert`s the upper-cased headings to be
N/S resp. E/W; the model is total and the claims only use valid
headings. -/
def convert_dms_to_latlon (latitude_deg latitude_min latitude_sec : ℚ)
    (latitude_heading : String)
    (longitude_deg longitude_min longitude_sec : ℚ)
    (longitude_heading : String) : ℚ × ℚ :=
  let lh := pyUpper latitude_heading
  let gh := pyUpper longitude_heading
  let latitude := latitude_deg + latitude_min / 60 + latitude_sec / (60 * 60)
  let longitude := longitude_deg + longitude_min / 60 + longitude_sec / (60 * 60)
  (if lh = "N" then latitude else -latitude,
   if gh = "E" then longitude else -longitude)

/-- Function `convert_latlon_to_maidenhead` from
`geo_conversion_modules.py` (lines 104-131).  The grid-square encoder
`maidenhead.to_maiden` is an external library, not part of the
repository, and is passed as a parameter; only the range guard and the
`None` result are the repository's code. -/
def convert_latlon_to_maidenhead (to_maiden : ℚ → ℚ → Nat → String)
    (latitude longitude : ℚ) (output_precision : Nat := 4) :
    Option String :=
  if (pyInt latitude).natAbs ≤ 90 ∧ (pyInt longitude).natAbs ≤ 180 then
    some (to_maiden latitude longitude output_precision)
  else none

/-- C7: the claimed DMS round trip fails on the code.  For latitude
and longitude -0.5 the degree part is zero, the negation of zero stays
zero, so the hemisphere comes out "N" resp. "E" and the sign of the
coordinate is lost entirely: the round trip returns +0.5, an error of
a full degree, far beyond the rounding precision of the seconds. -/
theorem dms_round_trip_failure :
    convert_latlon_to_dms (-(1 / 2)) (-(1 / 2)) 4 =
      (0, 30, 0, "N", 0, 30, 0, "E") ∧
    convert_dms_to_latlon 0 30 0 "N" 0 30 0 "E" = (1 / 2, 1 / 2) ∧
    ¬(|(1 : ℚ) / 2 - -(1 / 2)| ≤ 1 / 1000) := by
  refine ⟨?_, ?_, by norm_num⟩
  · have habs : |(-(1 / 2) : ℚ)| = 1 / 2 := by
      rw [abs_of_nonpos (by norm_num)]
      norm_num
    have habs2 : |(1 : ℚ) / 2| = 1 / 2 := by
      rw [abs_of_nonneg (by norm_num)]
    have hd1 : pyDivmod (1800 : ℚ) 60 = (30, 0) := by
      unfold pyDivmod
      have f1 : ⌊(1800 : ℚ) / 60⌋ = 30 := by
        rw [Int.floor_eq_iff]
        norm_num
      rw [f1]
      norm_num
    have hd2 : pyDivmod (30 : ℚ) 60 = (0, 30) := by
      unfold pyDivmod
      have f2 : ⌊(30 : ℚ) / 60⌋ = 0 := by
        rw [Int.floor_eq_iff]
        norm_num
      rw [f2]
      norm_num
    unfold convert_latlon_to_dms
    norm_num [habs, habs2, hd1, hd2, pyInt, pyRound, roundHalfEvenQ]
  · have hn : pyUpper "N" = "N" := by decide
    have he : pyUpper "E" = "E" := by decide
    unfold convert_dms_to_latlon
    norm_num [hn, he]

/-- C8 (as stated, refuted): latitude 90.5 is out of range, yet the
guard truncates it to 90 and lets it through: the conversion produces
a coordinate string instead of returning no result. -/
theorem maidenhead_out_of_range_counterexample :
    (90 : ℚ) < |(181 : ℚ) / 2| ∧
    convert_latlon_to_maidenhead (fun _ _ _ => "JO41") (181 / 2) 0 4 =
      some "JO41" := by
  constructor
  · rw [abs_of_nonneg (by norm_num)]
    norm_num
  · have hf : pyInt (181 / 2 : ℚ) = 90 := by
      unfold pyInt
      rw [if_pos (by norm_num), Int.floor_eq_iff]
      norm_num
    have hz : pyInt (0 : ℚ) = 0 := by
      unfold pyInt
      norm_num
    unfold convert_latlon_to_maidenhead
    rw [if_pos ⟨by rw [hf]; decide, by rw [hz]; decide⟩]

/-- C8 (amended): the conversion returns no result exactly when the
`int()`-truncated coordinates are out of range (`|int lat| > 90` or
`|int lon| > 180`); coordinates out of range by less than a full
degree pass the guard and produce a coordinate string. -/
theorem maidenhead_range_guard (f : ℚ → ℚ → Nat → String) (lat lon : ℚ)
    (n : Nat) :
    convert_latlon_to_maidenhead f lat lon n = none ↔
      90 < (pyInt lat).natAbs ∨ 180 < (pyInt lon).natAbs := by
  unfold convert_latlon_to_maidenhead
  by_cases h : (pyInt lat).natAbs ≤ 90 ∧ (pyInt lon).natAbs ≤ 180
  · rw [if_pos h]
    obtain ⟨h1, h2⟩ := h
    constructor
    · intro hc
      exact absurd hc (by simp)
    · intro hc
      rcases hc with hc | hc <;> omega
  · rw [if_neg h]
    constructor
    · intro _
      by_cases h90 : (pyInt lat).natAbs ≤ 90
      · refine Or.inr ?_
        by_cases h180 : (pyInt lon).natAbs ≤ 180
        · exact absurd ⟨h90, h180⟩ h
        · omega
      · exact Or.inl (by omega)
    · intro _
      rfl

/-! ### Great-circle distance and bearing, from `haversine` in
`geo_conversion_modules.py`.  The trigonometric float arithmetic is
embedded over the reals, so this section is noncomputable. -/

/-- The 16-point compass rose of `haversine` (the `headings` list). -/
def haversineHeadings : List String :=
  ["N", "NNE", "NE", "ENE", "E", "ESE", "SE", "SSE",
   "S", "SSW", "SW", "WSW", "W", "WNW", "NW", "NNW"]

noncomputable section

/-- Python `math.radians`. -/
def radiansR (x : ℝ) : ℝ := x * (Real.pi / 180)

/-- Python `math.degrees`. -/
def degreesR (x : ℝ) : ℝ := x * (180 / Real.pi)

/-- Python `math.atan2`. -/
def atan2R (y x : ℝ) : ℝ :=
  if 0 < x then Real.arctan (y / x)
  else if x < 0 then
    (if 0 ≤ y then Real.arctan (y / x) + Real.pi
     else Real.arctan (y / x) - Real.pi)
  else if 0 < y then Real.pi / 2
  else if y < 0 then -(Real.pi / 2)
  else 0

/-- Python float `%` with a positive modulus. -/
def pyFmod (x m : ℝ) : ℝ := x - m * ⌊x / m⌋

/-- Round to the nearest integer, ties to the even integer (Python 3
`round`), over the reals. -/
def roundHalfEvenR (x : ℝ) : ℤ :=
  if x - ⌊x⌋ < 1 / 2 then ⌊x⌋
  else if 1 / 2 < x - ⌊x⌋ then ⌊x⌋ + 1
  else if ⌊x⌋ % 2 = 0 then ⌊x⌋ else ⌊x⌋ + 1

/-- Function `haversine` from `geo_conversion_modules.py` (lines
343-438): great-circle distance (kilometers, or miles for imperial
units), initial bearing folded into `[0, 360)`, and the compass label
at `round(bearing / 22.5)` into the 16-point rose.  The source
`assert`s the lower-cased units to be metric or imperial; the model is
total, with any unit other than imperial treated as metric. -/
def haversine (latitude1 longitude1 latitude2 longitude2 : ℝ)
    (units : String := "metric") : ℝ × ℝ × String :=
  let lon1 := radiansR longitude1
  let lat1 := radiansR latitude1
  let lon2 := radiansR longitude2
  let lat2 := radiansR latitude2
  let dlon := lon2 - lon1
  let dlat := lat2 - lat1
  let a := Real.sin (dlat / 2) ^ 2 +
    Real.cos lat1 * Real.cos lat2 * Real.sin (dlon / 2) ^ 2
  let c := 2 * Real.arcsin (Real.sqrt a)
  let r : ℝ := 6371
  let distance0 := c * r
  let distance := if pyLower units = "imperial" then distance0 * 0.621371
    else distance0
  let bearing0 := degreesR (atan2R (Real.sin (lon2 - lon1) * Real.cos lat2)
    (Real.cos lat1 * Real.sin lat2 -
      Real.sin lat1 * Real.cos lat2 * Real.cos (lon2 - lon1)))
  let bearing := pyFmod (bearing0 + 360) 360
  let pos := roundHalfEvenR (bearing / (360 / 16))
  (distance, bearing,
    haversineHeadings.getD (pos.toNat % haversineHeadings.length) "N")

end

theorem haversine_0001_eval :
    haversine 0 0 0 1 "metric" = (Real.pi / 180 * 6371, 90, "E") := by
  have hpi := Real.pi_pos
  have hr0 : radiansR 0 = 0 := by simp [radiansR]
  have hr1 : radiansR 1 = Real.pi / 180 := by simp [radiansR]
  have hsnn : (0 : ℝ) ≤ Real.sin (Real.pi / 360) :=
    Real.sin_nonneg_of_nonneg_of_le_pi (by positivity) (by nlinarith)
  have hsqrt : Real.sqrt (Real.sin (Real.pi / 360) ^ 2) =
      Real.sin (Real.pi / 360) := by
    rw [Real.sqrt_sq hsnn]
  have harcsin : Real.arcsin (Real.sin (Real.pi / 360)) = Real.pi / 360 :=
    Real.arcsin_sin (by nlinarith) (by nlinarith)
  have hsinpos : 0 < Real.sin (Real.pi / 180) :=
    Real.sin_pos_of_pos_of_lt_pi (by positivity) (by nlinarith)
  have hlower : pyLower "metric" = "metric" := by decide
  have hfloor4 : ⌊(4 : ℝ)⌋ = 4 := by
    rw [Int.floor_eq_iff]
    norm_num
  have hne : ¬("metric" = "imperial") := by decide
  have h360 : Real.pi / 180 / 2 = Real.pi / 360 := by ring
  have hdeg : Real.pi / 2 * (180 / Real.pi) = 90 := by
    field_simp
    ring
  unfold haversine
  rw [hr0, hr1]
  norm_num [pyFmod, degreesR, atan2R, hsqrt, harcsin,
    hsinpos, hlower, hne, h360, hdeg, hsinpos.le, hsinpos.ne']
  constructor
  · ring
  · have hpos : roundHalfEvenR 4 = 4 := by
      unfold roundHalfEvenR
      rw [hfloor4]
      norm_num
    rw [hpos]
    decide

theorem pyFmod_range (x : ℝ) : 0 ≤ pyFmod x 360 ∧ pyFmod x 360 < 360 := by
  unfold pyFmod
  have h : x - 360 * (⌊x / 360⌋ : ℝ) = 360 * Int.fract (x / 360) := by
    unfold Int.fract
    ring
  rw [h]
  have h1 := Int.fract_nonneg (x / 360)
  have h2 := Int.fract_lt_one (x / 360)
  constructor
  · linarith
  · linarith

theorem haversine_bearing_eq (a b c d : ℝ) (u : String) :
    (haversine a b c d u).2.1 =
      pyFmod (degreesR (atan2R
        (Real.sin (radiansR d - radiansR b) * Real.cos (radiansR c))
        (Real.cos (radiansR a) * Real.sin (radiansR c) -
          Real.sin (radiansR a) * Real.cos (radiansR c) *
            Real.cos (radiansR d - radiansR b))) + 360) 360 := rfl

theorem haversine_heading_eq (a b c d : ℝ) (u : String) :
    (haversine a b c d u).2.2 = haversineHeadings.getD
      ((roundHalfEvenR ((haversine a b c d u).2.1 / (360 / 16))).toNat % 16)
      "N" := rfl

/-- C9: `haversine(0, 0, 0, 1)` in metric units returns a distance
within 0.01 km of 111.19 km (it equals 6371·π/180 ≈ 111.1945), the
bearing exactly 90 degrees and the heading "E"; in general the
returned bearing lies in `[0, 360)` and the returned heading is the
16-point compass label of the bearing rounded to the nearest
22.5-degree sector. -/
theorem haversine_properties :
    |(haversine 0 0 0 1 "metric").1 - 111.19| < 1 / 100 ∧
    (haversine 0 0 0 1 "metric").2.1 = 90 ∧
    (haversine 0 0 0 1 "metric").2.2 = "E" ∧
    (∀ a b c d : ℝ, ∀ u : String,
      0 ≤ (haversine a b c d u).2.1 ∧ (haversine a b c d u).2.1 < 360) ∧
    (∀ a b c d : ℝ, ∀ u : String,
      (haversine a b c d u).2.2 = haversineHeadings.getD
        ((roundHalfEvenR ((haversine a b c d u).2.1 / (360 / 16))).toNat % 16)
        "N") := by
  refine ⟨?_, ?_, ?_, ?_, ?_⟩
  · rw [show (haversine 0 0 0 1 "metric").1 = Real.pi / 180 * 6371 by
      rw [haversine_0001_eval]]
    have h1 := Real.pi_gt_d6
    have h2 := Real.pi_lt_d6
    rw [abs_lt]
    constructor
    · nlinarith
    · nlinarith
  · rw [haversine_0001_eval]
  · rw [haversine_0001_eval]
  · intro a b c d u
    rw [haversine_bearing_eq]
    exact pyFmod_range _
  · intro a b c d u
    exact haversine_heading_eq a b c d u

end Aed
